import Mathlib

/-!
Verification development for the appliances-control firmware
in src/appliances_control_hardware/src/main.cpp.

The firmware keeps nine named digital output pins of a NodeMCU board in
sync with a remote desired state received over MQTT.  We embed the pin
table, the pin mutations, the JSON snapshot publisher, the message
callback and the reconnect loop as pure Lean functions.  The folds of the
firmware run over the fixed global pin table; we parameterise each of them
by the table so that they can be reasoned about by induction, and the
concrete program functions instantiate the table with the fixed nine-entry
pinMap.  External collaborators are explicit: the JSON decoder is an
oracle argument of the callback, and the side effects on the MQTT client
are reified as a list of actions.
-/

/-- Digital output level LOW of the hardware API, the deasserted level. -/
def LOW : Bool := false

/-- Digital output level HIGH of the hardware API, the asserted level. -/
def HIGH : Bool := true

/-- NodeMCU pin constant D0 from the board support header. -/
def D0 : Nat := 16

/-- NodeMCU pin constant D1 from the board support header. -/
def D1 : Nat := 5

/-- NodeMCU pin constant D2 from the board support header. -/
def D2 : Nat := 4

/-- NodeMCU pin constant D3 from the board support header. -/
def D3 : Nat := 0

/-- NodeMCU pin constant D4 from the board support header. -/
def D4 : Nat := 2

/-- NodeMCU pin constant D5 from the board support header. -/
def D5 : Nat := 14

/-- NodeMCU pin constant D6 from the board support header. -/
def D6 : Nat := 12

/-- NodeMCU pin constant D7 from the board support header. -/
def D7 : Nat := 13

/-- NodeMCU pin constant D8 from the board support header. -/
def D8 : Nat := 15

/-- One row of the firmware pin table: a channel name and its pin number. -/
structure PinMapEntry where
  name : String
  pin : Nat
deriving DecidableEq

/-- The fixed pin table pinMap of main.cpp. -/
def pinMap : List PinMapEntry :=
  [⟨"d0", D0⟩, ⟨"d1", D1⟩, ⟨"d2", D2⟩, ⟨"d3", D3⟩, ⟨"d4", D4⟩,
   ⟨"d5", D5⟩, ⟨"d6", D6⟩, ⟨"d7", D7⟩, ⟨"d8", D8⟩]

/-- pinCount of main.cpp: the number of rows of the pin table. -/
def pinCount : Nat := pinMap.length

/-- Hardware state: the output level currently driven on each pin.  The
firmware keeps no separate cache, the pin level itself is the channel
state. -/
abbrev PinState := Nat → Bool

/-- digitalWrite of the hardware API: drive one pin to a level. -/
def digitalWrite (s : PinState) (p : Nat) (v : Bool) : PinState :=
  fun q => if q = p then v else s q

/-- digitalRead of the hardware API: the level currently driven on a pin. -/
def digitalRead (s : PinState) (p : Nat) : Bool := s p

/-- strcasecmp a b == 0 of the C library: case-insensitive equality of
strings. -/
def strcaseEq (a b : String) : Bool :=
  a.data.map Char.toLower == b.data.map Char.toLower

/-- setupPins of main.cpp over an arbitrary pin table: drive every listed
pin LOW, in table order. -/
def setupPinsT (table : List PinMapEntry) (s : PinState) : PinState :=
  table.foldl (fun st c => digitalWrite st c.pin LOW) s

/-- setupPins of main.cpp: drive every pin of the fixed pin table LOW. -/
def setupPins (s : PinState) : PinState := setupPinsT pinMap s

/-- control_topic of main.cpp. -/
def control_topic : String := "appliances/room_switchboard/control"

/-- state_topic of main.cpp. -/
def state_topic : String := "appliances/room_switchboard/state"

/-- Observable side effects of the firmware on the MQTT client and the
timer, reified as data. -/
inductive MqttAction where
  | subscribeTopic (topic : String)
  | publishMsg (topic : String) (payload : String) (retained : Bool)
  | delayMs (ms : Nat)
deriving DecidableEq

/-- ArduinoJson member assignment doc[k] = v: replace the member named k
when one exists, otherwise append a new member at the end. -/
def docSet (doc : List (String × String)) (k v : String) : List (String × String) :=
  if doc.any (fun p => p.1 == k) then
    doc.map (fun p => if p.1 == k then (k, v) else p)
  else doc ++ [(k, v)]

/-- Document-building loop of publish_state: one member per table row, in
table order, with value the token on when the pin reads HIGH and off
otherwise. -/
def buildSnapshotT (table : List PinMapEntry) (s : PinState) : List (String × String) :=
  table.foldl
    (fun doc c => docSet doc c.name (if digitalRead s c.pin == HIGH then "on" else "off"))
    []

/-- A JSON string literal.  The firmware documents hold only plain ASCII
channel names and the tokens on and off, so no escaping is involved. -/
def jsonQuote (s : String) : String := "\"" ++ s ++ "\""

/-- Rendering of the members of a flat string-to-string JSON object, in
order, separated by commas. -/
def renderPairs : List (String × String) → String
  | [] => ""
  | (k, v) :: rest =>
      jsonQuote k ++ ":" ++ jsonQuote v ++ (if rest.isEmpty then "" else ",") ++
        renderPairs rest

/-- Rendering of a flat string-to-string JSON object. -/
def renderDoc (doc : List (String × String)) : String :=
  "\x7b" ++ renderPairs doc ++ "\x7d"

/-- serializeJson doc buf n of ArduinoJson: writes at most n - 1
characters of the rendering into the buffer plus a NUL terminator,
silently truncating when the rendering does not fit. -/
def serializeJsonToBuf (doc : List (String × String)) (n : Nat) : String :=
  String.mk ((renderDoc doc).data.take (n - 1))

/-- publish_state of main.cpp over an arbitrary pin table: build the
snapshot document from the current pin levels, serialize it into the
256-byte payload buffer, and publish the buffer retained on the state
topic.  The publish is unconditional. -/
def publish_stateT (table : List PinMapEntry) (s : PinState) : List MqttAction :=
  [MqttAction.publishMsg state_topic (serializeJsonToBuf (buildSnapshotT table s) 256) true]

/-- publish_state of main.cpp, over the fixed pin table. -/
def publish_state (s : PinState) : List MqttAction := publish_stateT pinMap s

/-- Inner loop of the callback for one decoded member: every table row
whose name matches the key case-insensitively is driven HIGH when the
value is the case-insensitive token on, and LOW for any other value. -/
def applyPairT (table : List PinMapEntry) (s : PinState) (kv : String × String) : PinState :=
  table.foldl
    (fun st c =>
      if strcaseEq c.name kv.1 then
        digitalWrite st c.pin (if strcaseEq kv.2 "on" then HIGH else LOW)
      else st)
    s

/-- Outer loop of the callback: apply every member of the decoded
document, in document order. -/
def applyDocT (table : List PinMapEntry) (doc : List (String × String)) (s : PinState) :
    PinState :=
  doc.foldl (applyPairT table) s

/-- Outer loop of the callback over the fixed pin table. -/
def applyDoc (doc : List (String × String)) (s : PinState) : PinState :=
  applyDocT pinMap doc s

/-- Result of one callback invocation: the payload buffer after the
handler ran, the pin state after it ran, and the MQTT actions performed. -/
structure CallbackResult where
  buffer : List Nat
  state : PinState
  published : List MqttAction

/-- callback of main.cpp.  The JSON decoder is an external collaborator
and is passed as an oracle over the byte buffer.  The handler first writes
a NUL terminator at index len of the payload buffer, then decodes the
terminated buffer; on decode failure it returns without touching any pin
and without publishing; on success it applies every member and publishes
one snapshot of the resulting state. -/
def callbackT (table : List PinMapEntry)
    (decode : List Nat → Option (List (String × String)))
    (payload : List Nat) (len : Nat) (s : PinState) : CallbackResult :=
  let buf := payload.set len 0
  match decode buf with
  | none => ⟨buf, s, []⟩
  | some doc =>
      let s2 := applyDocT table doc s
      ⟨buf, s2, publish_stateT table s2⟩

/-- callback of main.cpp over the fixed pin table. -/
def callback (decode : List Nat → Option (List (String × String)))
    (payload : List Nat) (len : Nat) (s : PinState) : CallbackResult :=
  callbackT pinMap decode payload len s

/-- reconnect of main.cpp, driven by the list of outcomes of the
successive connection attempts: none when the loop is still running after
consuming all listed outcomes, otherwise the trace of actions up to and
including the on-entry subscribe and snapshot publish of the first
successful attempt.  Every failed attempt contributes a fixed 5000 ms
delay before the next one. -/
def reconnectT (table : List PinMapEntry) (s : PinState) :
    List Bool → Option (List MqttAction)
  | [] => none
  | true :: _ =>
      some (MqttAction.subscribeTopic control_topic :: publish_stateT table s)
  | false :: rest =>
      (reconnectT table s rest).map (fun acts => MqttAction.delayMs 5000 :: acts)

/-- reconnect of main.cpp over the fixed pin table. -/
def reconnect (s : PinState) (outcomes : List Bool) : Option (List MqttAction) :=
  reconnectT pinMap s outcomes

/-! Pointwise evaluation lemmas for the folds of the firmware. -/

/-- Pointwise effect of setupPinsT: a pin listed in the table ends LOW,
any other pin keeps its previous level. -/
theorem setupPinsT_apply (table : List PinMapEntry) (s : PinState) (p : Nat) :
    setupPinsT table s p = if table.any (fun c => c.pin == p) then LOW else s p := by
  induction table generalizing s with
  | nil => simp [setupPinsT]
  | cons c rest ih =>
    show setupPinsT rest (digitalWrite s c.pin LOW) p = _
    rw [ih]
    by_cases h1 : rest.any (fun c => c.pin == p)
    · simp [h1]
    · rcases eq_or_ne c.pin p with h2 | h2
      · simp [h1, h2, digitalWrite]
      · simp [h1, h2, Ne.symm h2, digitalWrite]

/-- Pointwise effect of the inner callback loop on one pin: the pin is
driven to the value decoded from the member when some table row with that
pin matches the key, and keeps its previous level otherwise. -/
theorem applyPairT_apply (table : List PinMapEntry) (s : PinState) (kv : String × String)
    (p : Nat) :
    applyPairT table s kv p =
      if table.any (fun c => c.pin == p && strcaseEq c.name kv.1) then
        (if strcaseEq kv.2 "on" then HIGH else LOW)
      else s p := by
  induction table generalizing s with
  | nil => simp [applyPairT]
  | cons c rest ih =>
    show applyPairT rest
        (if strcaseEq c.name kv.1 then
          digitalWrite s c.pin (if strcaseEq kv.2 "on" then HIGH else LOW)
        else s) kv p = _
    rw [ih]
    by_cases h1 : rest.any (fun c => c.pin == p && strcaseEq c.name kv.1)
    · simp [h1]
    · by_cases h2 : strcaseEq c.name kv.1
      · rcases eq_or_ne c.pin p with h3 | h3
        · simp [h1, h2, h3, digitalWrite]
        · simp [h1, h2, h3, Ne.symm h3, digitalWrite]
      · simp [h1, h2]

/-- The last write a document performs on a pin, if any: later members
override earlier ones, and a member writes the pin exactly when some table
row with that pin matches its key case-insensitively. -/
def docWriteT (table : List PinMapEntry) : List (String × String) → Nat → Option Bool
  | [], _ => none
  | kv :: rest, p =>
      match docWriteT table rest p with
      | some b => some b
      | none =>
          if table.any (fun c => c.pin == p && strcaseEq c.name kv.1) then
            some (if strcaseEq kv.2 "on" then HIGH else LOW)
          else none

/-- Pointwise effect of the outer callback loop: a pin ends at the last
level the document writes to it, and keeps its previous level when no
member writes it. -/
theorem applyDocT_apply (table : List PinMapEntry) (doc : List (String × String))
    (s : PinState) (p : Nat) :
    applyDocT table doc s p = (docWriteT table doc p).getD (s p) := by
  induction doc generalizing s with
  | nil => simp [applyDocT, docWriteT]
  | cons kv rest ih =>
    show applyDocT table rest (applyPairT table s kv) p = _
    rw [ih]
    simp only [docWriteT]
    cases h : docWriteT table rest p with
    | some b => simp
    | none =>
      rw [applyPairT_apply]
      by_cases hc : table.any (fun c => c.pin == p && strcaseEq c.name kv.1) <;> simp [hc]

/-- Applying the same decoded document twice is the same as applying it
once: every write drives a pin to a level determined by the document
alone. -/
theorem applyDocT_idem (table : List PinMapEntry) (doc : List (String × String))
    (s : PinState) :
    applyDocT table doc (applyDocT table doc s) = applyDocT table doc s := by
  funext p
  rw [applyDocT_apply, applyDocT_apply]
  cases h : docWriteT table doc p <;> simp

/-- C3: immediately after setupPins returns, and before any command has
been handled, every channel of the registry reads deasserted. -/
theorem setupPins_all_deasserted (s : PinState) (c : PinMapEntry) (h : c ∈ pinMap) :
    digitalRead (setupPins s) c.pin = LOW := by
  show setupPinsT pinMap s c.pin = LOW
  rw [setupPinsT_apply]
  have hany : pinMap.any (fun d => d.pin == c.pin) = true :=
    List.any_eq_true.mpr ⟨c, h, by simp⟩
  simp [hany]

/-- Witness for C3 at the first channel of the table, from an all-HIGH
prior state. -/
theorem setupPins_all_deasserted_witness :
    (⟨"d0", D0⟩ : PinMapEntry) ∈ pinMap ∧
      digitalRead (setupPins (fun _ => true)) (PinMapEntry.mk "d0" D0).pin = LOW :=
  ⟨by decide, setupPins_all_deasserted (fun _ => true) ⟨"d0", D0⟩ (by decide)⟩

/-- C2: when decoding of the terminated payload fails, the callback leaves
every pin at its prior level and publishes nothing. -/
theorem callback_decode_failure_inert
    (decode : List Nat → Option (List (String × String)))
    (payload : List Nat) (len : Nat) (s : PinState)
    (h : decode (payload.set len 0) = none) :
    (callback decode payload len s).state = s ∧
      (callback decode payload len s).published = [] := by
  simp [callback, callbackT, h]

/-- Witness for C2 with the everywhere-failing decoder on an empty
payload. -/
theorem callback_decode_failure_inert_witness :
    ((fun _ : List Nat => (none : Option (List (String × String)))) (([] : List Nat).set 0 0)
        = none) ∧
      ((callback (fun _ => none) [] 0 (fun _ => false)).state = (fun _ => false) ∧
        (callback (fun _ => none) [] 0 (fun _ => false)).published = []) :=
  ⟨rfl, callback_decode_failure_inert (fun _ => none) [] 0 (fun _ => false) rfl⟩

/-- Splitting the outer callback loop at any point: the members of the
second part are applied to the state produced by the first part. -/
theorem applyDocT_append (table : List PinMapEntry) (d1 d2 : List (String × String))
    (s : PinState) :
    applyDocT table (d1 ++ d2) s = applyDocT table d2 (applyDocT table d1 s) := by
  simp [applyDocT, List.foldl_append]

/-- C7: on every successfully decoded command the callback performs
exactly one publish, and its payload is the snapshot of the state reached
after every member of the command, however the command is split, has been
applied. -/
theorem callback_publishes_once_after_all
    (decode : List Nat → Option (List (String × String)))
    (payload : List Nat) (len : Nat) (s : PinState)
    (doc1 doc2 : List (String × String))
    (h : decode (payload.set len 0) = some (doc1 ++ doc2)) :
    (callback decode payload len s).published =
      publish_stateT pinMap (applyDocT pinMap doc2 (applyDocT pinMap doc1 s)) ∧
      (callback decode payload len s).published.length = 1 := by
  simp only [callback, callbackT, h]
  rw [applyDocT_append]
  exact ⟨rfl, rfl⟩

/-- Witness for C7 on a concrete two-member command. -/
theorem callback_publishes_once_after_all_witness :
    ((fun _ : List Nat => some ([("d0", "on")] ++ [("d1", "off")])) (([] : List Nat).set 0 0)
        = some ([("d0", "on")] ++ [("d1", "off")])) ∧
      ((callback (fun _ => some ([("d0", "on")] ++ [("d1", "off")])) [] 0
            (fun _ => false)).published =
          publish_stateT pinMap
            (applyDocT pinMap [("d1", "off")] (applyDocT pinMap [("d0", "on")] (fun _ => false))) ∧
        (callback (fun _ => some ([("d0", "on")] ++ [("d1", "off")])) [] 0
            (fun _ => false)).published.length = 1) :=
  ⟨rfl,
    callback_publishes_once_after_all (fun _ => some ([("d0", "on")] ++ [("d1", "off")]))
      [] 0 (fun _ => false) [("d0", "on")] [("d1", "off")] rfl⟩

/-- C8: handling the same decodable message twice in succession leaves the
registry in the same state, and produces the same published snapshot, as
handling it once. -/
theorem callback_idempotent
    (decode : List Nat → Option (List (String × String)))
    (payload : List Nat) (len : Nat) (s : PinState)
    (doc : List (String × String))
    (h : decode (payload.set len 0) = some doc) :
    (callback decode payload len (callback decode payload len s).state).state =
        (callback decode payload len s).state ∧
      (callback decode payload len (callback decode payload len s).state).published =
        (callback decode payload len s).published := by
  simp only [callback, callbackT, h]
  constructor
  · exact applyDocT_idem pinMap doc s
  · rw [applyDocT_idem]

/-- Witness for C8 on a concrete one-member command. -/
theorem callback_idempotent_witness :
    ((fun _ : List Nat => some [("d2", "ON")]) (([] : List Nat).set 0 0) = some [("d2", "ON")]) ∧
      ((callback (fun _ => some [("d2", "ON")]) [] 0
            (callback (fun _ => some [("d2", "ON")]) [] 0 (fun _ => false)).state).state =
          (callback (fun _ => some [("d2", "ON")]) [] 0 (fun _ => false)).state ∧
        (callback (fun _ => some [("d2", "ON")]) [] 0
            (callback (fun _ => some [("d2", "ON")]) [] 0 (fun _ => false)).state).published =
          (callback (fun _ => some [("d2", "ON")]) [] 0 (fun _ => false)).published) :=
  ⟨rfl,
    callback_idempotent (fun _ => some [("d2", "ON")]) [] 0 (fun _ => false) [("d2", "ON")] rfl⟩

/-! Snapshot construction and serialization. -/

/-- Assigning a member whose key is not yet present appends it at the
end of the document. -/
theorem docSet_fresh (doc : List (String × String)) (k v : String)
    (h : doc.any (fun p => p.1 == k) = false) :
    docSet doc k v = doc ++ [(k, v)] := by
  simp only [docSet, h]
  rfl

/-- The snapshot-building fold appends one fresh member per table row when
the row names are distinct and none of them is already a key of the
accumulator. -/
theorem foldl_docSet_eq (f : PinMapEntry → String) (table : List PinMapEntry) :
    ∀ acc : List (String × String),
      (∀ p ∈ acc, ∀ c ∈ table, p.1 ≠ c.name) →
      table.Pairwise (fun a b => a.name ≠ b.name) →
      table.foldl (fun doc c => docSet doc c.name (f c)) acc =
        acc ++ table.map (fun c => (c.name, f c)) := by
  induction table with
  | nil => intro acc _ _; simp
  | cons c rest ih =>
    intro acc hdisj hpw
    rcases List.pairwise_cons.mp hpw with ⟨hc, hrest⟩
    have hfresh : acc.any (fun p => p.1 == c.name) = false := by
      rw [List.any_eq_false]
      intro p hp
      simp only [beq_iff_eq]
      exact hdisj p hp c (List.mem_cons_self c rest)
    rw [List.foldl_cons, docSet_fresh acc c.name (f c) hfresh]
    rw [ih (acc ++ [(c.name, f c)]) ?_ hrest]
    · simp
    · intro p hp d hd
      rcases List.mem_append.mp hp with hp | hp
      · exact hdisj p hp d (List.mem_cons_of_mem c hd)
      · simp only [List.mem_singleton] at hp
        subst hp
        exact hc d hd

/-- C6: for every registry whose channel names are distinct, every built
snapshot has exactly one member per channel, enumerated in registry order,
with value on exactly when the channel pin reads HIGH and off otherwise;
in particular it has exactly as many members as the registry has channels
and every value is the token on or the token off. -/
theorem snapshot_complete (table : List PinMapEntry) (s : PinState)
    (h : table.Pairwise (fun a b => a.name ≠ b.name)) :
    buildSnapshotT table s =
        table.map (fun c => (c.name, if digitalRead s c.pin == HIGH then "on" else "off")) ∧
      (buildSnapshotT table s).length = table.length ∧
      ∀ m ∈ buildSnapshotT table s, m.2 = "on" ∨ m.2 = "off" := by
  have heq : buildSnapshotT table s =
      table.map (fun c => (c.name, if digitalRead s c.pin == HIGH then "on" else "off")) := by
    show table.foldl _ [] = _
    rw [foldl_docSet_eq (fun c => if digitalRead s c.pin == HIGH then "on" else "off") table []
      (by simp) h]
    simp
  refine ⟨heq, by rw [heq, List.length_map], ?_⟩
  intro m hm
  rw [heq] at hm
  rcases List.mem_map.mp hm with ⟨c, _, rfl⟩
  by_cases hv : digitalRead s c.pin == HIGH
  · left; simp [hv]
  · right; simp [hv]

/-- Witness for C6 at the fixed pin table of the firmware, from the
all-LOW state. -/
theorem snapshot_complete_witness :
    pinMap.Pairwise (fun a b => a.name ≠ b.name) ∧
      (buildSnapshotT pinMap (fun _ => false) =
          pinMap.map
            (fun c => (c.name, if digitalRead (fun _ => false) c.pin == HIGH then "on" else "off")) ∧
        (buildSnapshotT pinMap (fun _ => false)).length = pinMap.length ∧
        ∀ m ∈ buildSnapshotT pinMap (fun _ => false), m.2 = "on" ∨ m.2 = "off") :=
  ⟨by decide, snapshot_complete pinMap (fun _ => false) (by decide)⟩

/-- Length of the rendering of a document whose keys are at most two
characters and whose values are at most three. -/
theorem renderPairs_length_le (doc : List (String × String))
    (h : ∀ p ∈ doc, p.1.length ≤ 2 ∧ p.2.length ≤ 3) :
    (renderPairs doc).length ≤ 11 * doc.length := by
  induction doc with
  | nil => simp [renderPairs]
  | cons p rest ih =>
    obtain ⟨h1, h2⟩ := h p (List.mem_cons_self p rest)
    have hr := ih (fun q hq => h q (List.mem_cons_of_mem p hq))
    rcases p with ⟨k, v⟩
    have hq : ("\"" : String).length = 1 := rfl
    have hcolon : (":" : String).length = 1 := rfl
    have hif : (if rest.isEmpty then ("" : String) else ",").length ≤ 1 := by
      by_cases hx : rest.isEmpty
      · simp [hx]
      · simp only [hx, if_neg Bool.false_ne_true]
        decide
    simp only [renderPairs, jsonQuote, String.length_append, List.length_cons, hq, hcolon] at *
    omega

/-- On the fixed nine-channel pin table, the full rendering of every
snapshot is at most 101 characters, far below the 255 characters the
256-byte payload buffer can carry. -/
theorem render_snapshot_fits (s : PinState) :
    (renderDoc (buildSnapshotT pinMap s)).length ≤ 255 := by
  obtain ⟨heq, hlen, -⟩ := snapshot_complete pinMap s (by decide)
  have hbound : ∀ p ∈ buildSnapshotT pinMap s, p.1.length ≤ 2 ∧ p.2.length ≤ 3 := by
    intro p hp
    rw [heq] at hp
    rcases List.mem_map.mp hp with ⟨c, hc, rfl⟩
    constructor
    · have : ∀ c ∈ pinMap, c.name.length ≤ 2 := by decide
      exact this c hc
    · by_cases hv : digitalRead s c.pin == HIGH <;> simp [hv] <;> decide
  have hpairs := renderPairs_length_le (buildSnapshotT pinMap s) hbound
  have hn : (buildSnapshotT pinMap s).length = 9 := by rw [hlen]; rfl
  have hob : ("\x7b" : String).length = 1 := rfl
  have hcb : ("\x7d" : String).length = 1 := rfl
  simp only [renderDoc, String.length_append, hob, hcb]
  omega

/-- Characters of a string counted through the data list. -/
theorem string_data_length (t : String) : t.data.length = t.length := rfl

/-- When the full rendering fits in the 256-byte buffer, serialization
does not truncate. -/
theorem serializeJsonToBuf_of_fits (doc : List (String × String))
    (h : (renderDoc doc).length ≤ 255) :
    serializeJsonToBuf doc 256 = renderDoc doc := by
  unfold serializeJsonToBuf
  have h2 : (renderDoc doc).data.length ≤ 256 - 1 := by
    rw [string_data_length]
    omega
  rw [List.take_of_length_le h2]

/-- C1 as amended: the firmware contains no encode-failure abort, but on
its fixed nine-channel registry the full snapshot rendering always fits
the 256-byte buffer, so publish_state always emits exactly one retained
message carrying the complete, untruncated snapshot, and the pin state is
not touched by publishing. -/
theorem publish_state_always_complete (s : PinState) :
    (renderDoc (buildSnapshotT pinMap s)).length ≤ 255 ∧
      publish_state s =
        [MqttAction.publishMsg state_topic (renderDoc (buildSnapshotT pinMap s)) true] := by
  refine ⟨render_snapshot_fits s, ?_⟩
  simp only [publish_state, publish_stateT]
  rw [serializeJsonToBuf_of_fits _ (render_snapshot_fits s)]

/-- A one-row pin table whose channel name is three hundred characters
long: its snapshot rendering cannot fit the 256-byte payload buffer. -/
def bigTable : List PinMapEntry :=
  [⟨String.mk (List.replicate 300 'a'), 1⟩]

set_option maxRecDepth 16000 in
/-- Counterexample to C1 as stated: on a registry whose snapshot rendering
does not fit the fixed 256-byte buffer, the publish routine of the
firmware does not abandon the publish; it emits exactly one message whose
payload is the silent truncation of the rendering, not the full
rendering. -/
theorem publish_state_truncation_counterexample :
    255 < (renderDoc (buildSnapshotT bigTable (fun _ => false))).length ∧
      publish_stateT bigTable (fun _ => false) ≠ [] ∧
      publish_stateT bigTable (fun _ => false) =
        [MqttAction.publishMsg state_topic
          (String.mk ((renderDoc (buildSnapshotT bigTable (fun _ => false))).data.take 255))
          true] ∧
      serializeJsonToBuf (buildSnapshotT bigTable (fun _ => false)) 256 ≠
        renderDoc (buildSnapshotT bigTable (fun _ => false)) := by
  refine ⟨by decide, by decide, rfl, by decide⟩

/-! Key matching in the command processor. -/

/-- Case-insensitive equality unfolded to equality of lowered character
lists. -/
theorem strcaseEq_eq_true_iff (a b : String) :
    strcaseEq a b = true ↔ a.data.map Char.toLower = b.data.map Char.toLower := by
  simp [strcaseEq]

/-- No two rows of the fixed pin table share a pin number. -/
theorem pinMap_pins_inj :
    ∀ c ∈ pinMap, ∀ d ∈ pinMap, c.pin = d.pin → c = d := by decide

/-- A document none of whose members writes the given pin leaves no last
write for it. -/
theorem docWriteT_none_of_no_match (table : List PinMapEntry)
    (doc : List (String × String)) (p : Nat)
    (h : ∀ kv ∈ doc, table.any (fun c => c.pin == p && strcaseEq c.name kv.1) = false) :
    docWriteT table doc p = none := by
  induction doc with
  | nil => rfl
  | cons kv rest ih =>
    simp only [docWriteT]
    rw [ih (fun kv' h' => h kv' (List.mem_cons_of_mem kv h')),
      h kv (List.mem_cons_self kv rest)]
    rfl

/-- When the keys of a document are pairwise distinct case-insensitively,
a member whose key matches a channel of the fixed table determines the
last write on that channel pin. -/
theorem docWriteT_eq_of_mem (doc : List (String × String)) (k v : String)
    (c : PinMapEntry)
    (hpw : doc.Pairwise (fun a b => strcaseEq a.1 b.1 = false))
    (hmem : (k, v) ∈ doc) (hc : c ∈ pinMap) (hname : strcaseEq c.name k = true) :
    docWriteT pinMap doc c.pin = some (if strcaseEq v "on" then HIGH else LOW) := by
  induction doc with
  | nil => cases hmem
  | cons kv rest ih =>
    rcases List.pairwise_cons.mp hpw with ⟨hhead, hrest⟩
    rcases List.mem_cons.mp hmem with heq | hmem2
    · subst heq
      have hnone : docWriteT pinMap rest c.pin = none := by
        apply docWriteT_none_of_no_match
        intro kv' hkv'
        rw [List.any_eq_false]
        intro d hd hcontra
        rcases Bool.and_eq_true_iff.mp hcontra with ⟨hdp, hdn⟩
        have hdc : d = c := pinMap_pins_inj d hd c hc (by simpa using hdp)
        subst hdc
        have hk' : strcaseEq k kv'.1 = false := hhead kv' hkv'
        have h1 := (strcaseEq_eq_true_iff d.name k).mp hname
        have h2 := (strcaseEq_eq_true_iff d.name kv'.1).mp hdn
        have hkk : strcaseEq k kv'.1 = true := by
          rw [strcaseEq_eq_true_iff, ← h1]
          exact h2
        rw [hk'] at hkk
        cases hkk
      simp only [docWriteT, hnone]
      have hany : pinMap.any (fun d => d.pin == c.pin && strcaseEq d.name k) = true := by
        apply List.any_eq_true.mpr
        exact ⟨c, hc, by simp [hname]⟩
      simp only [hany]
      rfl
    · have := ih hrest hmem2
      simp only [docWriteT, this]

/-- C4: on a successfully decoded command whose keys are pairwise distinct
case-insensitively, every member whose key matches a channel name
case-insensitively drives that channel HIGH exactly when the value is the
case-insensitive token on, and LOW for every other value token. -/
theorem callback_sets_matched_channel
    (decode : List Nat → Option (List (String × String)))
    (payload : List Nat) (len : Nat) (s : PinState)
    (doc : List (String × String)) (k v : String) (c : PinMapEntry)
    (hdec : decode (payload.set len 0) = some doc)
    (hpw : doc.Pairwise (fun a b => strcaseEq a.1 b.1 = false))
    (hmem : (k, v) ∈ doc) (hc : c ∈ pinMap) (hname : strcaseEq c.name k = true) :
    (callback decode payload len s).state c.pin =
      (if strcaseEq v "on" then HIGH else LOW) := by
  simp only [callback, callbackT, hdec]
  rw [applyDocT_apply, docWriteT_eq_of_mem doc k v c hpw hmem hc hname]
  rfl

/-- Witness for C4: the command with the single member D0 maps to oN,
against the all-LOW state, asserts channel d0. -/
theorem callback_sets_matched_channel_witness :
    ((fun _ : List Nat => some [("D0", "oN")]) (([] : List Nat).set 0 0) = some [("D0", "oN")]) ∧
      ([("D0", "oN")] : List (String × String)).Pairwise
        (fun a b => strcaseEq a.1 b.1 = false) ∧
      (("D0", "oN") ∈ ([("D0", "oN")] : List (String × String))) ∧
      ((⟨"d0", D0⟩ : PinMapEntry) ∈ pinMap) ∧
      strcaseEq (PinMapEntry.mk "d0" D0).name "D0" = true ∧
      (callback (fun _ => some [("D0", "oN")]) [] 0 (fun _ => false)).state
          (PinMapEntry.mk "d0" D0).pin =
        (if strcaseEq "oN" "on" then HIGH else LOW) :=
  ⟨rfl, by decide, by decide, by decide, by decide,
    callback_sets_matched_channel (fun _ => some [("D0", "oN")]) [] 0 (fun _ => false)
      [("D0", "oN")] "D0" "oN" ⟨"d0", D0⟩ rfl (by decide) (by decide) (by decide) (by decide)⟩

/-- A member whose key matches no table row leaves the whole pin state
unchanged. -/
theorem applyPairT_no_match (table : List PinMapEntry) (s : PinState)
    (kv : String × String)
    (h : ∀ c ∈ table, strcaseEq c.name kv.1 = false) :
    applyPairT table s kv = s := by
  funext p
  rw [applyPairT_apply]
  have hany : table.any (fun c => c.pin == p && strcaseEq c.name kv.1) = false := by
    rw [List.any_eq_false]
    intro c hc
    simp [h c hc]
  simp [hany]

/-- Removing a member whose key matches no table row does not change the
effect of the document. -/
theorem applyDocT_erase_unknown (table : List PinMapEntry)
    (d1 d2 : List (String × String)) (k v : String) (s : PinState)
    (h : ∀ c ∈ table, strcaseEq c.name k = false) :
    applyDocT table (d1 ++ (k, v) :: d2) s = applyDocT table (d1 ++ d2) s := by
  rw [applyDocT_append, applyDocT_append]
  show applyDocT table d2 (applyPairT table (applyDocT table d1 s) (k, v)) = _
  rw [applyPairT_no_match table _ _ h]

/-- A channel of the fixed table matched by no key of the document keeps
its prior pin level. -/
theorem applyDocT_untouched (doc : List (String × String)) (c : PinMapEntry)
    (hc : c ∈ pinMap) (s : PinState)
    (h : ∀ kv ∈ doc, strcaseEq c.name kv.1 = false) :
    applyDocT pinMap doc s c.pin = s c.pin := by
  rw [applyDocT_apply, docWriteT_none_of_no_match]
  · rfl
  · intro kv hkv
    rw [List.any_eq_false]
    intro d hd hcontra
    rcases Bool.and_eq_true_iff.mp hcontra with ⟨hdp, hdn⟩
    have hdc : d = c := pinMap_pins_inj d hd c hc (by simpa using hdp)
    subst hdc
    rw [h kv hkv] at hdn
    cases hdn

/-- C5: a key of a successfully decoded command that matches no channel
name case-insensitively is a silent no-op: the resulting state and the
published snapshot are those of the command with that member removed, the
publish still occurs, and every channel matched by none of the keys keeps
its prior state. -/
theorem callback_unknown_key_noop
    (decode : List Nat → Option (List (String × String)))
    (payload : List Nat) (len : Nat) (s : PinState)
    (d1 d2 : List (String × String)) (k v : String)
    (hdec : decode (payload.set len 0) = some (d1 ++ (k, v) :: d2))
    (hunk : ∀ c ∈ pinMap, strcaseEq c.name k = false) :
    (callback decode payload len s).state = applyDocT pinMap (d1 ++ d2) s ∧
      (callback decode payload len s).published =
        publish_stateT pinMap (applyDocT pinMap (d1 ++ d2) s) ∧
      ∀ c ∈ pinMap, (∀ kv ∈ d1 ++ (k, v) :: d2, strcaseEq c.name kv.1 = false) →
        (callback decode payload len s).state c.pin = s c.pin := by
  have hst : applyDocT pinMap (d1 ++ (k, v) :: d2) s = applyDocT pinMap (d1 ++ d2) s :=
    applyDocT_erase_unknown pinMap d1 d2 k v s hunk
  simp only [callback, callbackT, hdec]
  refine ⟨hst, by rw [hst], ?_⟩
  intro c hc hnone
  exact applyDocT_untouched (d1 ++ (k, v) :: d2) c hc s hnone

/-- Witness for C5: the command with members d0 maps to on and bogus maps
to on, where bogus matches no channel. -/
theorem callback_unknown_key_noop_witness :
    ((fun _ : List Nat => some ([("d0", "on")] ++ ("bogus", "on") :: []))
        (([] : List Nat).set 0 0) = some ([("d0", "on")] ++ ("bogus", "on") :: [])) ∧
      (∀ c ∈ pinMap, strcaseEq c.name "bogus" = false) ∧
      ((callback (fun _ => some ([("d0", "on")] ++ ("bogus", "on") :: [])) [] 0
            (fun _ => false)).state =
          applyDocT pinMap ([("d0", "on")] ++ []) (fun _ => false) ∧
        (callback (fun _ => some ([("d0", "on")] ++ ("bogus", "on") :: [])) [] 0
            (fun _ => false)).published =
          publish_stateT pinMap (applyDocT pinMap ([("d0", "on")] ++ []) (fun _ => false)) ∧
        ∀ c ∈ pinMap,
          (∀ kv ∈ [("d0", "on")] ++ ("bogus", "on") :: [], strcaseEq c.name kv.1 = false) →
            (callback (fun _ => some ([("d0", "on")] ++ ("bogus", "on") :: [])) [] 0
                (fun _ => false)).state c.pin = (fun _ => false : PinState) c.pin) :=
  ⟨rfl, by decide,
    callback_unknown_key_noop (fun _ => some ([("d0", "on")] ++ ("bogus", "on") :: []))
      [] 0 (fun _ => false) [("d0", "on")] [] "bogus" "on" rfl (by decide)⟩

/-! Reconnect loop and payload buffer handling. -/

/-- Test for a publish action. -/
def isPublish : MqttAction → Bool
  | MqttAction.publishMsg _ _ _ => true
  | _ => false

/-- Test for a subscribe action. -/
def isSub : MqttAction → Bool
  | MqttAction.subscribeTopic _ => true
  | _ => false

/-- Test for a delay action. -/
def isDelay : MqttAction → Bool
  | MqttAction.delayMs _ => true
  | _ => false

/-- The reconnect loop on n failed attempts followed by a success. -/
theorem reconnectT_replicate (table : List PinMapEntry) (s : PinState) (n : Nat) :
    reconnectT table s (List.replicate n false ++ [true]) =
      some (List.replicate n (MqttAction.delayMs 5000) ++
        (MqttAction.subscribeTopic control_topic :: publish_stateT table s)) := by
  induction n with
  | zero => rfl
  | succ m ih =>
    rw [List.replicate_succ, List.cons_append, List.replicate_succ, List.cons_append]
    show (reconnectT table s (List.replicate m false ++ [true])).map _ = _
    rw [ih]
    rfl

/-- The reconnect loop never exits while every attempt fails. -/
theorem reconnectT_all_fail (table : List PinMapEntry) (s : PinState) (n : Nat) :
    reconnectT table s (List.replicate n false) = none := by
  induction n with
  | zero => rfl
  | succ m ih =>
    rw [List.replicate_succ]
    show (reconnectT table s (List.replicate m false)).map _ = none
    rw [ih]
    rfl

/-- C9: for any number n of failed attempts followed by a success, the
reconnect loop emits exactly n fixed 5000 ms delays and then, on entry to
the connected state, exactly one subscribe to the control topic and
exactly one snapshot publish of the current unchanged state; with no
successful attempt it never exits, so there is no maximum retry count and
no backoff growth. -/
theorem reconnect_retry_and_announce (s : PinState) (n : Nat) :
    reconnect s (List.replicate n false ++ [true]) =
        some (List.replicate n (MqttAction.delayMs 5000) ++
          (MqttAction.subscribeTopic control_topic :: publish_stateT pinMap s)) ∧
      ((List.replicate n (MqttAction.delayMs 5000) ++
          (MqttAction.subscribeTopic control_topic :: publish_stateT pinMap s)).filter
            isPublish).length = 1 ∧
      ((List.replicate n (MqttAction.delayMs 5000) ++
          (MqttAction.subscribeTopic control_topic :: publish_stateT pinMap s)).filter
            isSub).length = 1 ∧
      (∀ a ∈ List.replicate n (MqttAction.delayMs 5000) ++
          (MqttAction.subscribeTopic control_topic :: publish_stateT pinMap s),
        isDelay a = true → a = MqttAction.delayMs 5000) ∧
      reconnect s (List.replicate n false) = none := by
  refine ⟨reconnectT_replicate pinMap s n, ?_, ?_, ?_, reconnectT_all_fail pinMap s n⟩
  · simp [List.filter_append, publish_stateT, isPublish, isSub]
  · simp [List.filter_append, publish_stateT, isPublish, isSub]
  · intro a ha _
    rcases List.mem_append.mp ha with ha | ha
    · exact (List.eq_of_mem_replicate ha)
    · rcases List.mem_cons.mp ha with ha | ha
      · subst ha; cases ‹isDelay (MqttAction.subscribeTopic control_topic) = true›
      · simp only [publish_stateT, List.mem_singleton] at ha
        subst ha
        cases ‹isDelay (MqttAction.publishMsg state_topic
          (serializeJsonToBuf (buildSnapshotT pinMap s) 256) true) = true›

/-- C10: for every inbound message the handler writes one NUL byte at
index len of the payload buffer, whatever the decode outcome; within a
buffer of at least len + 1 bytes this write lands in bounds, preserves the
buffer length, sets exactly index len to zero and leaves every other index
unchanged. -/
theorem callback_nul_terminates
    (decode : List Nat → Option (List (String × String)))
    (payload : List Nat) (len : Nat) (s : PinState)
    (h : len + 1 ≤ payload.length) :
    (callback decode payload len s).buffer = payload.set len 0 ∧
      (payload.set len 0).length = payload.length ∧
      (payload.set len 0)[len]? = some 0 ∧
      ∀ i, i ≠ len → (payload.set len 0)[i]? = payload[i]? := by
  refine ⟨?_, by simp, ?_, ?_⟩
  · cases hdec : decode (payload.set len 0) with
    | none => simp [callback, callbackT, hdec]
    | some d => simp [callback, callbackT, hdec]
  · rw [List.getElem?_set_self (by omega)]
  · intro i hi
    rw [List.getElem?_set_ne (Ne.symm hi)]

/-- Witness for C10 on a concrete two-byte buffer holding a one-byte
message. -/
theorem callback_nul_terminates_witness :
    1 + 1 ≤ ([7, 7] : List Nat).length ∧
      ((callback (fun _ => none) [7, 7] 1 (fun _ => false)).buffer = ([7, 7] : List Nat).set 1 0 ∧
        (([7, 7] : List Nat).set 1 0).length = ([7, 7] : List Nat).length ∧
        (([7, 7] : List Nat).set 1 0)[1]? = some 0 ∧
        ∀ i, i ≠ 1 → (([7, 7] : List Nat).set 1 0)[i]? = ([7, 7] : List Nat)[i]?) :=
  ⟨by decide, callback_nul_terminates (fun _ => none) [7, 7] 1 (fun _ => false) (by decide)⟩
